import Mathlib

/-
Verification of the ACL parsing / IPv4 data-model core of the
`net_device_parser` repository (src/net_device_parser/models.py,
src/net_device_parser/acl_parser.py, src/net_device_parser/exceptions.py).

The Python code is shallowly embedded:
  * strings are `List Char` (inputs in scope are ASCII; the Python regexes
    are used in default, non-MULTILINE / non-DOTALL mode);
  * the anchored `re.search` calls of acl_parser.py are run through a small
    leftmost-greedy backtracking matcher (`matchPat`) over an AST (`Pat`)
    that covers exactly the constructs those patterns use: literals,
    greedy `+` / `*` / `?` over character classes, alternation, capture
    groups and the `$` anchor (Python `$`: end of string, or just before a
    single final newline);
  * Python exceptions become `Except` error values: the two exception
    classes that can escape `parse_ace_config` (`ParserExceptionInvalidEntry`,
    `IPv4AddressException`) plus the pydantic validation failure on the
    `protocol` enum field are the constructors of `AceErr`;
  * the `logging.warning` side channel of `parse_acl_config` is modelled as
    a list of `Diagnostic` values returned next to the `AccessList`.
-/

def strL (s : String) : List Char := s.data

/-- Python `\s` character class (ASCII part; the inputs in scope are ASCII). -/
def isPySpace (c : Char) : Bool :=
  c = ' ' || c = '\t' || c = '\n' || c = '\r' || c = '\x0b' || c = '\x0c'

/-- Python `[0-9]` (also `\d` on the ASCII inputs in scope). -/
def isDigit0 (c : Char) : Bool := '0' ≤ c && c ≤ '9'

/-- Python `[0-9.]`, the address-token class of acl_parser.py. -/
def isDigitDot (c : Char) : Bool := isDigit0 c || c = '.'

/-- Python `\S`. -/
def nonSpace (c : Char) : Bool := !(isPySpace c)

/-- Python `.` (matches anything but a newline; no DOTALL flag is used). -/
def anyCharNoNL (c : Char) : Bool := !(c = '\n')

/-- Numeric value of an ASCII digit. -/
def digitVal (c : Char) : Nat := c.toNat - 48

/-- Python `int()` on a run of ASCII digits (the only shape it is applied to
here: capture groups of `[0-9]+` / `\d+`, and pydantic's str→int coercion of
such a group). -/
def decValue (s : List Char) : Nat := s.foldl (fun a c => 10 * a + digitVal c) 0

def digitChar (d : Nat) : Char := Char.ofNat (48 + d)

/-- Helper for `natToDec`: repeated divmod, most significant digit first.
The first argument is fuel; `natToDec` passes `n` itself, which is enough
because the remaining value at least halves every step. -/
def decDigitsGo : Nat → Nat → List Char → List Char
  | 0, _, acc => acc
  | f + 1, n, acc => if n = 0 then acc else decDigitsGo f (n / 10) (digitChar (n % 10) :: acc)

/-- Python `str()` of a nonnegative integer. -/
def natToDec (n : Nat) : List Char := if n = 0 then ['0'] else decDigitsGo n n []

/-- Holds when `p` is a prefix of `l` (Python's internal prefix test for literal
pattern pieces and for `str.replace` / `re.sub` scanning). -/
def startsWith : List Char → List Char → Bool
  | [], _ => true
  | _ :: _, [] => false
  | c :: p, d :: l => c = d && startsWith p l

/-- Holds when `p` occurs as a contiguous segment of `l`. -/
def containsSeg (p : List Char) : List Char → Bool
  | [] => startsWith p []
  | l@(_ :: rest) => startsWith p l || containsSeg p rest

/-! ## A leftmost-greedy backtracking regex matcher

Exactly the pattern language used by the three anchored `re.search` calls of
the source: literals, greedy `plus`/`star` over a character class, greedy
`opt`, ordered alternation, numbered capture groups, and the Python `$`
anchor. Greedy pieces try the longest match first and backtrack through
shorter ones, alternation tries the left branch first, `opt` tries the
present branch first — Python's backtracking search order. -/

abbrev REnv := List (Nat × List Char)

inductive Pat : Type where
  | lit : List Char → Pat
  | plus : (Char → Bool) → Pat
  | star : (Char → Bool) → Pat
  | grp : Nat → Pat → Pat
  | cat : Pat → Pat → Pat
  | alt : Pat → Pat → Pat
  | opt : Pat → Pat
  | dollar : Pat

/-- Try `f hi`, `f (hi-1)`, …, `f lo`, first success wins. -/
def tryLens (f : Nat → Option REnv) : Nat → Nat → Option REnv
  | 0, lo => if lo = 0 then f 0 else none
  | n + 1, lo => if n + 1 < lo then none else (f (n + 1)) <|> tryLens f n lo

/-- CPS backtracking matcher. `k` receives the remaining input and the
capture environment; a capture made inside a branch that is later
backtracked is discarded with the branch (the environment is threaded by
value), matching Python's semantics for groups of abandoned branches. -/
def matchPat : Pat → List Char → (List Char → REnv → Option REnv) → REnv → Option REnv
  | .lit cs, s, k, env => if startsWith cs s then k (s.drop cs.length) env else none
  | .plus p, s, k, env => tryLens (fun n => k (s.drop n) env) ((s.takeWhile p).length) 1
  | .star p, s, k, env => tryLens (fun n => k (s.drop n) env) ((s.takeWhile p).length) 0
  | .grp i r, s, k, env =>
      matchPat r s (fun s2 env2 => k s2 ((i, s.take (s.length - s2.length)) :: env2)) env
  | .cat a b, s, k, env => matchPat a s (fun s2 env2 => matchPat b s2 k env2) env
  | .alt a b, s, k, env => (matchPat a s k env) <|> (matchPat b s k env)
  | .opt r, s, k, env => (matchPat r s k env) <|> k s env
  | .dollar, s, k, env => if s = [] ∨ s = ['\n'] then k s env else none

def catList : List Pat → Pat
  | [] => .lit []
  | [p] => p
  | p :: ps => .cat p (catList ps)

/-- Anchored search (all three `re.search` patterns in scope start with `^`,
so Python only ever tries position 0). Returns the capture environment on a
match. -/
def reMatch (pat : Pat) (s : List Char) : Option REnv :=
  matchPat pat s (fun _ env => some env) []

/-- acl_parser.py line 52-54:
`^\s+(?P<number>\d+)\s+(?P<action>permit|deny)\s+(?P<protocol>\S+)\s+(?P<line>.+)$`
with groups number ↦ 1, action ↦ 2, protocol ↦ 3, line ↦ 4. -/
def step1Pat : Pat := catList
  [.plus isPySpace, .grp 1 (.plus isDigit0), .plus isPySpace,
   .grp 2 (.alt (.lit (strL "permit")) (.lit (strL "deny"))), .plus isPySpace,
   .grp 3 (.plus nonSpace), .plus isPySpace, .grp 4 (.plus anyCharNoNL), .dollar]

/-- acl_parser.py line 68-74:
`^(?P<source>(?P<src_ip>[0-9.]+)\s+(?P<src_wildcard>[0-9.]+)\s+(eq\s+(?P<src_port>[0-9]+)\s*)?)`
`(?P<destination>(?P<dst_ip>[0-9.]+)\s+(?P<dst_wildcard>[0-9.]+)\s*(eq\s+(?P<dst_port>[0-9]+))?)$`
with groups src_ip ↦ 1, src_wildcard ↦ 2, src_port ↦ 3, dst_ip ↦ 4,
dst_wildcard ↦ 5, dst_port ↦ 6 (the unnamed wrapper groups and the unused
`source` / `destination` groups do not influence matching and are omitted). -/
def ipsPat : Pat := catList
  [.grp 1 (.plus isDigitDot), .plus isPySpace, .grp 2 (.plus isDigitDot), .plus isPySpace,
   .opt (catList [.lit (strL "eq"), .plus isPySpace, .grp 3 (.plus isDigit0), .star isPySpace]),
   .grp 4 (.plus isDigitDot), .plus isPySpace, .grp 5 (.plus isDigitDot), .star isPySpace,
   .opt (catList [.lit (strL "eq"), .plus isPySpace, .grp 6 (.plus isDigit0)]), .dollar]

/-! ## Data model (models.py) -/

/-- models.py `AccessListAction`. -/
inductive AccessListAction : Type where
  | deny | permit
deriving DecidableEq

/-- models.py `AccessListProtocol`. -/
inductive AccessListProtocol : Type where
  | ip | udp | tcp | icmp
deriving DecidableEq

/-- The two raise sites of `IPv4AddressException` (exceptions.py): the
dotted-quad pattern mismatch in `_from_string` (models.py line 59) and the
32-bit range check in `__init__` (models.py line 84). The source uses a
single exception class; the spec's §7 error-kind enumeration names the two
sites `AddressFormatError` and `AddressRangeError`. -/
inductive IPv4Err : Type where
  | format | range
deriving DecidableEq

/-- models.py `IPv4Address`: pydantic model with a single int field `ip`.
Its constructor invariant is proved below, not baked into the type. -/
structure IPv4Address : Type where
  ip : Int
deriving DecidableEq

/-- models.py `IPv4Address._from_string`, regex part (line 52):
`^([0-9]+)\.([0-9]+)\.([0-9]+)\.([0-9]+)$`. Each `[0-9]+` is a maximal
digit run (giving digits back would put a digit where the literal `.` or
the anchor must match, so greediness is forced); Python's `$` also accepts
a single trailing newline. Returns the four captured digit groups. -/
def ipv4Groups (s : List Char) : Option (List Char × List Char × List Char × List Char) :=
  let g1 := s.takeWhile isDigit0
  if g1 = [] then none else
  match s.drop g1.length with
  | '.' :: r1 =>
    let g2 := r1.takeWhile isDigit0
    if g2 = [] then none else
    match r1.drop g2.length with
    | '.' :: r2 =>
      let g3 := r2.takeWhile isDigit0
      if g3 = [] then none else
      match r2.drop g3.length with
      | '.' :: r3 =>
        let g4 := r3.takeWhile isDigit0
        if g4 = [] then none else
        match r3.drop g4.length with
        | [] => some (g1, g2, g3, g4)
        | ['\n'] => some (g1, g2, g3, g4)
        | _ => none
      | _ => none
    | _ => none
  | _ => none

/-- models.py `IPv4Address._from_string`, composite part (lines 54-58):
`final_number += int(octets[i]) << ((3 - i) * 8)`. -/
def ipv4FromString (s : List Char) : Except IPv4Err Nat :=
  match ipv4Groups s with
  | none => .error .format
  | some (g1, g2, g3, g4) =>
      .ok ((decValue g1 <<< 24) + (decValue g2 <<< 16) + (decValue g3 <<< 8) + decValue g4)

/-- models.py `IPv4Address.__init__` (lines 74-86): a string argument goes
through `_from_string`; then `if ip < 0 or ip >= math.pow(2, 32)` raises
(`math.pow(2, 32)` is exactly `2^32`; Python compares int to float
exactly). The signature also admits `None`, but that input can never
produce an object (`None < 0` raises `TypeError` before `super().__init__`),
so the embedding's input type covers exactly the constructions that can
succeed. -/
def IPv4Address.create : Int ⊕ List Char → Except IPv4Err IPv4Address
  | .inl i => if i < 0 ∨ 2 ^ 32 ≤ i then .error .range else .ok ⟨i⟩
  | .inr s =>
      match ipv4FromString s with
      | .error e => .error e
      | .ok n => if (n : Int) < 0 ∨ 2 ^ 32 ≤ (n : Int) then .error .range else .ok ⟨n⟩

/-- models.py `IPv4Address.__str__` (lines 61-72): octet i is
`(self.ip & (255 << ((3-i)*8))) >> ((3-i)*8)`, octets joined with `.`.
The underlying value is nonnegative after construction, so the Python int
bit operations coincide with the `Nat` ones on `ip.toNat`. -/
def IPv4Address.toDottedQuad (a : IPv4Address) : List Char :=
  let n := a.ip.toNat
  natToDec ((n &&& (255 <<< 24)) >>> 24) ++ '.' ::
  (natToDec ((n &&& (255 <<< 16)) >>> 16) ++ '.' ::
  (natToDec ((n &&& (255 <<< 8)) >>> 8) ++ '.' ::
  natToDec ((n &&& (255 <<< 0)) >>> 0)))

/-- models.py `ACEIPv4Address`. -/
structure ACEIPv4Address : Type where
  address : IPv4Address
  wildcard_mask : IPv4Address
deriving DecidableEq

/-- models.py `IPv4Packet`. -/
structure IPv4Packet : Type where
  protocol : AccessListProtocol
  source_ipv4 : IPv4Address
  source_port : Option Int := none
  destination_ipv4 : IPv4Address
  destination_port : Option Int := none
deriving DecidableEq

/-- models.py `AccessListEntry` (fields only; `is_hit` is declared in the
source but unimplemented, see `AccessListEntry.is_hit` below). The source
stores the optional port capture groups as the raw strings (pydantic does
not validate plain attribute assignment); the model records their numeric
value, which is what the spec's data model describes. -/
structure AccessListEntry : Type where
  index_number : Int
  action : AccessListAction
  protocol : AccessListProtocol
  source_ipv4 : Option ACEIPv4Address := none
  source_port : Option Int := none
  destination_ipv4 : Option ACEIPv4Address := none
  destination_port : Option Int := none
deriving DecidableEq

/-- models.py `AccessList`. -/
structure AccessList : Type where
  aces : List AccessListEntry
deriving DecidableEq

/-- Diagnostic severity of the block parser's observability side channel
(`self._logger.warning(...)`, acl_parser.py line 110). -/
inductive Severity : Type where
  | warning
deriving DecidableEq

/-- One emitted diagnostic: severity plus the raw skipped line. -/
structure Diagnostic : Type where
  severity : Severity
  line : List Char
deriving DecidableEq

/-- The failure modes that can escape `parse_ace_config`:
`invalidEntry` = `ParserExceptionInvalidEntry` (raised at acl_parser.py
lines 77 and 93); `validationError` = pydantic's `ValidationError` when the
`protocol` token of a structurally well-formed header is not a member of
`AccessListProtocol`; `addressError e` = `IPv4AddressException` escaping
from the `IPv4Address` constructions of step 4 (lines 80-89). -/
inductive AceErr : Type where
  | invalidEntry
  | validationError
  | addressError : IPv4Err → AceErr
deriving DecidableEq

instance {E A : Type} [DecidableEq E] [DecidableEq A] : DecidableEq (Except E A) := fun x y =>
  match x, y with
  | .error a, .error b =>
      if h : a = b then isTrue (congrArg Except.error h)
      else isFalse (fun hh => h (Except.error.inj hh))
  | .error _, .ok _ => isFalse (fun hh => Except.noConfusion hh)
  | .ok _, .error _ => isFalse (fun hh => Except.noConfusion hh)
  | .ok a, .ok b =>
      if h : a = b then isTrue (congrArg Except.ok h)
      else isFalse (fun hh => h (Except.ok.inj hh))

/-- pydantic validation of the `action` field against `AccessListAction`
(by enum value). -/
def actionOfString (s : List Char) : Option AccessListAction :=
  if s = strL "deny" then some .deny
  else if s = strL "permit" then some .permit
  else none

/-- pydantic validation of the `protocol` field against
`AccessListProtocol` (by enum value). -/
def protoOfString (s : List Char) : Option AccessListProtocol :=
  if s = strL "ip" then some .ip
  else if s = strL "udp" then some .udp
  else if s = strL "tcp" then some .tcp
  else if s = strL "icmp" then some .icmp
  else none

/-! ## The step-2 textual substitutions (acl_parser.py lines 62-65) -/

def anyRepl : List Char := strL "0.0.0.0 255.255.255.255"

/-- acl_parser.py line 64: `line.replace('any', '0.0.0.0 255.255.255.255')`.
Python `str.replace` rewrites every non-overlapping occurrence of the plain
substring, left to right — there is no word-boundary test. -/
def anyReplace : List Char → List Char
  | [] => []
  | [c] => [c]
  | [c, d] => [c, d]
  | c :: d :: e :: rest =>
      if c = 'a' ∧ d = 'n' ∧ e = 'y' then anyRepl ++ anyReplace rest
      else c :: anyReplace (d :: e :: rest)

def hostKey : List Char := strL "host "

def spZeros : List Char := strL " 0.0.0.0"

/-- Helper for `hostSub`; the first argument is fuel (`hostSub` passes the
input length, which suffices because every step consumes at least one
character). At each position: if the input starts with the literal
`host ` followed by at least one `[0-9.]` character, the match is the
maximal such run (nothing follows the greedy `+` in the pattern), it is
rewritten to `<run> 0.0.0.0` and scanning resumes after the matched text;
otherwise one character is emitted and scanning moves on — Python
`re.sub`'s leftmost, non-overlapping behaviour. -/
def hostSubGo : Nat → List Char → List Char
  | 0, l => l
  | _ + 1, [] => []
  | f + 1, c :: rest =>
      let run := (rest.drop 4).takeWhile isDigitDot
      if (c :: rest).take 5 = hostKey ∧ run ≠ [] then
        run ++ spZeros ++ hostSubGo f ((rest.drop 4).drop run.length)
      else c :: hostSubGo f rest

/-- acl_parser.py line 65: `re.sub(r'host ([0-9.]+)', r'\1 0.0.0.0', line)`. -/
def hostSub (l : List Char) : List Char := hostSubGo l.length l

/-- acl_parser.py lines 63-65: both step-2 substitutions in source order
(`any` first, then `host`). -/
def substituteLine (l : List Char) : List Char := hostSub (anyReplace l)

/-! ## The parsers (acl_parser.py `CiscoIOSXEACLParser`) -/

/-- acl_parser.py `parse_ace_config` (lines 36-94). Order of effects as in
the source: the step-1 header regex; the pydantic `AccessListEntry`
construction (whose `protocol` enum validation can fail); the step-2
substitutions; the step-3 address/port regex; the four `IPv4Address`
constructions in textual order (src address, src wildcard, dst address,
dst wildcard), whose `IPv4AddressException` escapes untranslated. -/
def parse_ace_config (ace_config : List Char) : Except AceErr AccessListEntry :=
  match reMatch step1Pat ace_config with
  | none => .error .invalidEntry
  | some env =>
    match actionOfString ((env.lookup 2).getD []), protoOfString ((env.lookup 3).getD []) with
    | some act, some proto =>
      match reMatch ipsPat (substituteLine ((env.lookup 4).getD [])) with
      | none => .error .invalidEntry
      | some ips =>
        match IPv4Address.create (.inr ((ips.lookup 1).getD [])) with
        | .error e => .error (.addressError e)
        | .ok srcAddr =>
          match IPv4Address.create (.inr ((ips.lookup 2).getD [])) with
          | .error e => .error (.addressError e)
          | .ok srcMask =>
            match IPv4Address.create (.inr ((ips.lookup 4).getD [])) with
            | .error e => .error (.addressError e)
            | .ok dstAddr =>
              match IPv4Address.create (.inr ((ips.lookup 5).getD [])) with
              | .error e => .error (.addressError e)
              | .ok dstMask =>
                .ok
                  { index_number := (decValue ((env.lookup 1).getD []) : Int)
                    action := act
                    protocol := proto
                    source_ipv4 := some ⟨srcAddr, srcMask⟩
                    source_port := (ips.lookup 3).map (fun g => (decValue g : Int))
                    destination_ipv4 := some ⟨dstAddr, dstMask⟩
                    destination_port := (ips.lookup 6).map (fun g => (decValue g : Int)) }
    | _, _ => .error .validationError

/-- Python `acl.split('\n')`: `n` separators yield `n+1` parts, the empty
string yields `['']`. -/
def splitNL : List Char → List (List Char)
  | [] => [[]]
  | '\n' :: rest => [] :: splitNL rest
  | c :: rest =>
      match splitNL rest with
      | h :: t => (c :: h) :: t
      | [] => [[c]]

/-- Loop body of acl_parser.py `parse_acl_config` (lines 104-111): each line
through `parse_ace_config`; `ParserExceptionInvalidEntry` is caught and
turned into one warning diagnostic; any other exception propagates and
aborts the whole call (diagnostics already emitted before an abort live
only on the logging side channel and are not part of the returned value). -/
def parseAclGo : List (List Char) → Except AceErr (List AccessListEntry × List Diagnostic)
  | [] => .ok ([], [])
  | l :: ls =>
      match parse_ace_config l with
      | .ok e => (parseAclGo ls).map (fun r => (e :: r.1, r.2))
      | .error .invalidEntry => (parseAclGo ls).map (fun r => (r.1, ⟨.warning, l⟩ :: r.2))
      | .error err => .error err

/-- acl_parser.py `parse_acl_config` (lines 96-111). -/
def parse_acl_config (acl : List Char) : Except AceErr (AccessList × List Diagnostic) :=
  (parseAclGo (splitNL acl)).map (fun r => (⟨r.1⟩, r.2))

/-! ## The packet matcher -/

/-- Modelled from the spec: the wildcard-mask match rule of §3
("a candidate address matches the spec iff, for every bit position where
the wildcard mask bit is 0, the candidate's bit equals the base address's
bit"), over the 32 bits of an IPv4 address. The source repository has no
implementation of this rule (models.py's `is_hit` is its only consumer and
is unimplemented). -/
def ACEIPv4Address.matchesAddr (s : ACEIPv4Address) (c : IPv4Address) : Bool :=
  (List.range 32).all fun i =>
    s.wildcard_mask.ip.toNat.testBit i
    || decide (c.ip.toNat.testBit i = s.address.ip.toNat.testBit i)

/-- Modelled from the spec: models.py declares `AccessListEntry.is_hit`
(lines 139-149) but its body is `raise NotImplemented`; §4.4 of the spec
states the authoritative contract, which is embedded here verbatim:
protocol `ip` or equal protocol, and each absent constraint is a wildcard,
and each present address spec / port must match. -/
def AccessListEntry.is_hit (e : AccessListEntry) (p : IPv4Packet) : Bool :=
  (decide (e.protocol = .ip) || decide (e.protocol = p.protocol))
  && (match e.source_ipv4 with
      | none => true
      | some s => s.matchesAddr p.source_ipv4)
  && (match e.destination_ipv4 with
      | none => true
      | some d => d.matchesAddr p.destination_ipv4)
  && (match e.source_port with
      | none => true
      | some sp => decide (p.source_port = some sp))
  && (match e.destination_port with
      | none => true
      | some dp => decide (p.destination_port = some dp))

/-! ## Concrete material shared by several claims -/

/-- The concrete ACE line of the spec's scenario 1. -/
def sampleAceLine : List Char := strL "   10 permit tcp any host 10.0.0.5 eq 80"

/-- The entry the source produces for `sampleAceLine`:
`10.0.0.5 = 167772165`, `255.255.255.255 = 4294967295`. -/
def sampleAceEntry : AccessListEntry :=
  { index_number := 10
    action := .permit
    protocol := .tcp
    source_ipv4 := some ⟨⟨0⟩, ⟨4294967295⟩⟩
    source_port := none
    destination_ipv4 := some ⟨⟨167772165⟩, ⟨0⟩⟩
    destination_port := some 80 }

/-! ## Claim theorems -/

/-- C5: parsing the single line `   10 permit tcp any host 10.0.0.5 eq 80`
succeeds and yields the ACE with index_number 10, action permit, protocol
tcp, source 0.0.0.0 with wildcard mask 255.255.255.255, no source port,
destination 10.0.0.5 with wildcard mask 0.0.0.0, destination port 80. -/
theorem C5_parse_sample_line : parse_ace_config sampleAceLine = .ok sampleAceEntry := by
  rfl

/-- C3 (code behaviour at the failing input): the string `0.0.0.256` has an
octet outside `[0,255]`, yet `IPv4Address` construction succeeds with value
256: `_from_string` only checks the digit-group pattern, and the composite
`0·2^24 + 0·2^16 + 0·2^8 + 256 = 256` passes the final 32-bit range check. -/
theorem C3_octet_256_accepted :
    IPv4Address.create (.inr (strL "0.0.0.256")) = .ok ⟨256⟩ := by
  rfl

/-- C6 (counterexample): parsing the empty text does not return the
claimed "no diagnostics" result: Python `''.split('\n')` is `['']`, the
empty line fails the ACE grammar and is skipped with one warning. -/
theorem C6_counterexample :
    parse_acl_config (strL "") ≠ .ok (⟨[]⟩, []) := by
  decide

/-- C6 (amended): parsing the empty text succeeds with an empty AccessList,
but emits exactly one warning diagnostic, for the single empty line that
`split('\n')` produces from the empty string. -/
theorem C6_empty_block :
    parse_acl_config (strL "") = .ok (⟨[]⟩, [⟨.warning, []⟩]) := by
  rfl

/-- C9 (counterexample): the ACE line grammar accepts an index of `0`
(`\d+` matches `0`), so the claimed property `index_number ≥ 1` is false:
evaluating it on the entry parsed from `   0 permit tcp any any` gives
`false`. -/
theorem C9_counterexample :
    (parse_ace_config (strL "   0 permit tcp any any")).map
      (fun e => decide (1 ≤ e.index_number)) = .ok false := by
  rfl

/-- C9 (amended): every AccessListEntry produced by the single-line parser
has a nonnegative index_number — the index is the decimal value of the
`\d+` capture group, which is a natural number, but it can be `0`. -/
theorem C9_index_nonneg (l : List Char) (e : AccessListEntry)
    (h : parse_ace_config l = .ok e) : 0 ≤ e.index_number := by
  unfold parse_ace_config at h
  repeat any_goals split at h
  all_goals first
    | exact Except.noConfusion h
    | (injection h with h2; subst h2; exact Int.natCast_nonneg _)

/-- C9 witness. -/
theorem C9_index_nonneg_witness :
    parse_ace_config sampleAceLine = .ok sampleAceEntry ∧ 0 ≤ sampleAceEntry.index_number :=
  ⟨rfl, C9_index_nonneg sampleAceLine sampleAceEntry rfl⟩

/-- C10: every AccessListEntry returned by the single-line parser has both
source_ipv4 and destination_ipv4 set to a concrete address/wildcard pair —
the parser's only success path materialises both (`any` having been
rewritten to `0.0.0.0 255.255.255.255`), never leaving the "absent means
any" representation. -/
theorem C10_addresses_always_set (l : List Char) (e : AccessListEntry)
    (h : parse_ace_config l = .ok e) :
    e.source_ipv4 ≠ none ∧ e.destination_ipv4 ≠ none := by
  unfold parse_ace_config at h
  repeat any_goals split at h
  all_goals first
    | exact Except.noConfusion h
    | (injection h with h2; subst h2; exact ⟨by simp, by simp⟩)

/-- C10 witness. -/
theorem C10_addresses_always_set_witness :
    parse_ace_config sampleAceLine = .ok sampleAceEntry ∧
      sampleAceEntry.source_ipv4 ≠ none ∧ sampleAceEntry.destination_ipv4 ≠ none :=
  ⟨rfl, C10_addresses_always_set sampleAceLine sampleAceEntry rfl⟩

/-- C8: every successfully constructed IPv4Address — from an integer or
from a dotted-quad string — satisfies `0 ≤ value ≤ 2^32 − 1`: the
constructor's final check rejects everything outside that range
(`math.pow(2, 32)` is exactly `2^32` and Python's int/float comparison is
exact). -/
theorem C8_value_invariant (x : Int ⊕ List Char) (a : IPv4Address)
    (h : IPv4Address.create x = .ok a) : 0 ≤ a.ip ∧ a.ip ≤ 2 ^ 32 - 1 := by
  unfold IPv4Address.create at h
  repeat any_goals split at h
  all_goals first
    | exact Except.noConfusion h
    | (injection h with h2; subst h2; dsimp only; omega)

/-- C8 witness, exercising both construction paths the claim names: from a
dotted-quad string and from an integer. -/
theorem C8_value_invariant_witness :
    (IPv4Address.create (.inr (strL "10.0.0.5")) = .ok ⟨167772165⟩ ∧
      0 ≤ (167772165 : Int) ∧ (167772165 : Int) ≤ 2 ^ 32 - 1) ∧
    (IPv4Address.create (.inl 4294967295) = .ok ⟨4294967295⟩ ∧
      0 ≤ (4294967295 : Int) ∧ (4294967295 : Int) ≤ 2 ^ 32 - 1) :=
  ⟨⟨rfl, C8_value_invariant (.inr (strL "10.0.0.5")) ⟨167772165⟩ rfl⟩,
   ⟨rfl, C8_value_invariant (.inl 4294967295) ⟨4294967295⟩ rfl⟩⟩

/-- A wildcard mask of all ones (`255.255.255.255`, the expansion of `any`)
matches every candidate address: every bit is "don't care". -/
theorem matchesAddr_allOnes (base c : IPv4Address) :
    ACEIPv4Address.matchesAddr ⟨base, ⟨(4294967295 : Int)⟩⟩ c = true := by
  unfold ACEIPv4Address.matchesAddr
  rw [List.all_eq_true]
  intro i hi
  have h32 : i < 32 := List.mem_range.mp hi
  have hbit : Nat.testBit 4294967295 i = true := by
    have h1 : (4294967295 : Nat) = 2 ^ 32 - 1 := by norm_num
    rw [h1, Nat.testBit_two_pow_sub_one]
    simpa using h32
  simp only [Bool.or_eq_true]
  left
  exact hbit

/-- An IPv4Packet with protocol tcp, destination address 10.0.0.5 and
destination port 80 (source fields arbitrary but fixed). -/
def samplePacketHit : IPv4Packet :=
  { protocol := .tcp, source_ipv4 := ⟨16909060⟩, source_port := none
    destination_ipv4 := ⟨167772165⟩, destination_port := some 80 }

/-- An IPv4Packet with protocol tcp, destination address 10.0.0.6 and
destination port 80. -/
def samplePacketMiss : IPv4Packet :=
  { protocol := .tcp, source_ipv4 := ⟨16909060⟩, source_port := none
    destination_ipv4 := ⟨167772166⟩, destination_port := some 80 }

/-- C2: for the ACE parsed from `   10 permit tcp any host 10.0.0.5 eq 80`,
`is_hit` (modelled from the spec's §4.4 contract — the source declares the
method but leaves it unimplemented) is true for every packet with protocol
tcp, destination address 10.0.0.5 (`167772165`), destination port 80, and
false for every packet with protocol tcp, destination address 10.0.0.6
(`167772166`), destination port 80. -/
theorem C2_matcher_scenario (e : AccessListEntry) (p q : IPv4Packet)
    (h : parse_ace_config sampleAceLine = .ok e)
    (hp1 : p.protocol = .tcp) (hp2 : p.destination_ipv4 = ⟨167772165⟩)
    (hp3 : p.destination_port = some 80)
    (hq1 : q.protocol = .tcp) (hq2 : q.destination_ipv4 = ⟨167772166⟩)
    (hq3 : q.destination_port = some 80) :
    e.is_hit p = true ∧ e.is_hit q = false := by
  have h0 : parse_ace_config sampleAceLine = .ok sampleAceEntry := rfl
  rw [h0] at h
  have he : e = sampleAceEntry := (Except.ok.inj h).symm
  subst he
  have hdhit : ACEIPv4Address.matchesAddr ⟨⟨167772165⟩, ⟨0⟩⟩ ⟨167772165⟩ = true := by rfl
  have hdmiss : ACEIPv4Address.matchesAddr ⟨⟨167772165⟩, ⟨0⟩⟩ ⟨167772166⟩ = false := by rfl
  constructor
  · simp [AccessListEntry.is_hit, sampleAceEntry, hp1, hp2, hp3, matchesAddr_allOnes, hdhit]
  · simp [AccessListEntry.is_hit, sampleAceEntry, hq1, hq2, hq3, matchesAddr_allOnes, hdmiss]

/-- C2 witness. -/
theorem C2_matcher_scenario_witness :
    parse_ace_config sampleAceLine = .ok sampleAceEntry ∧
      sampleAceEntry.is_hit samplePacketHit = true ∧
      sampleAceEntry.is_hit samplePacketMiss = false :=
  ⟨rfl,
   (C2_matcher_scenario sampleAceEntry samplePacketHit samplePacketMiss
      rfl rfl rfl rfl rfl rfl rfl).1,
   (C2_matcher_scenario sampleAceEntry samplePacketHit samplePacketMiss
      rfl rfl rfl rfl rfl rfl rfl).2⟩

/-- Behaviour of the block-parse loop when no line raises anything beyond
`ParserExceptionInvalidEntry`: successes are kept in order, each failing
line contributes one warning diagnostic. -/
theorem parseAclGo_soft (ls : List (List Char))
    (h : ∀ l ∈ ls, ((parse_ace_config l).toOption).isSome = true ∨
         parse_ace_config l = .error .invalidEntry) :
    parseAclGo ls = .ok
      (ls.filterMap (fun l => (parse_ace_config l).toOption),
       (ls.filter (fun l => ((parse_ace_config l).toOption).isNone)).map
         (fun l => ⟨.warning, l⟩)) := by
  induction ls with
  | nil => rfl
  | cons l ls ih =>
      have hl := h l (by simp)
      have hrest : ∀ x ∈ ls, ((parse_ace_config x).toOption).isSome = true ∨
          parse_ace_config x = .error .invalidEntry := fun x hx => h x (by simp [hx])
      cases hp : parse_ace_config l with
      | ok e =>
          simp [parseAclGo, hp, ih hrest, List.filterMap_cons, List.filter_cons,
            Except.toOption, Except.map]
      | error err =>
          have herr : err = .invalidEntry := by
            rcases hl with h1 | h1
            · rw [hp] at h1; simp [Except.toOption] at h1
            · rw [hp] at h1; exact Except.error.inj h1
          subst herr
          simp [parseAclGo, hp, ih hrest, List.filterMap_cons, List.filter_cons,
            Except.toOption, Except.map]

/-- C1 (amended): as long as every line of the input either parses or fails
with `MalformedEntryError` (`ParserExceptionInvalidEntry`), the block parse
never fails, every malformed line is skipped with one warning diagnostic,
and the result is exactly the successfully parsed ACEs in original line
order. (The restriction is necessary: an address error escaping a line
aborts the whole operation, see the counterexample.) -/
theorem C1_block_skips_malformed_lines (acl : List Char)
    (h : ∀ l ∈ splitNL acl, ((parse_ace_config l).toOption).isSome = true ∨
         parse_ace_config l = .error .invalidEntry) :
    parse_acl_config acl = .ok
      (⟨(splitNL acl).filterMap (fun l => (parse_ace_config l).toOption)⟩,
       ((splitNL acl).filter (fun l => ((parse_ace_config l).toOption).isNone)).map
         (fun l => ⟨.warning, l⟩)) := by
  unfold parse_acl_config
  rw [parseAclGo_soft (splitNL acl) h]
  rfl

/-- A block whose single line is structurally a valid ACE but carries an
out-of-range address. -/
def badAclText : List Char := strL "   10 permit tcp 999.999.999.999 0.0.0.0 1.2.3.4 0.0.0.0"

/-- C1 (counterexample): the block parser is not total on malformed lines —
this line (malformed only in its address value) raises the address-range
exception, which `parse_acl_config` does not catch, so the whole operation
fails instead of skipping the line with a diagnostic. -/
theorem C1_counterexample :
    parse_acl_config badAclText = .error (.addressError .range) := by
  rfl

/-- A block with one valid and one malformed (structurally invalid) line. -/
def mixedAclText : List Char := strL "   10 permit tcp any any\nbogus"

/-- C1 witness. -/
theorem C1_block_skips_malformed_lines_witness :
    (∀ l ∈ splitNL mixedAclText, ((parse_ace_config l).toOption).isSome = true ∨
       parse_ace_config l = .error .invalidEntry) ∧
    parse_acl_config mixedAclText = .ok
      (⟨(splitNL mixedAclText).filterMap (fun l => (parse_ace_config l).toOption)⟩,
       ((splitNL mixedAclText).filter
          (fun l => ((parse_ace_config l).toOption).isNone)).map (fun l => ⟨.warning, l⟩)) :=
  ⟨by decide, C1_block_skips_malformed_lines mixedAclText (by decide)⟩

/-! ## C7: the step-2 substitutions -/

def anyPat : List Char := strL "any"

/-- The function `hostSubGo` ignores its fuel as long as the fuel covers the input
length (each step consumes at least one character). -/
theorem hostSubGo_fuel (f : Nat) : ∀ (g : Nat) (l : List Char),
    l.length ≤ f → l.length ≤ g → hostSubGo f l = hostSubGo g l := by
  induction f with
  | zero =>
      intro g l hf _
      have : l = [] := List.eq_nil_of_length_eq_zero (Nat.le_zero.mp hf)
      subst this
      cases g <;> rfl
  | succ f ih =>
      intro g l hf hg
      cases l with
      | nil => cases g <;> rfl
      | cons c rest =>
          cases g with
          | zero => simp at hg
          | succ g =>
              simp only [hostSubGo]
              split
              · have hlen : ((rest.drop 4).drop
                    ((rest.drop 4).takeWhile isDigitDot).length).length ≤ rest.length := by
                  simp [List.length_drop]
                simp only [List.length_cons, Nat.succ_le_succ_iff] at hf hg
                rw [ih _ _ (le_trans hlen hf) (le_trans hlen hg)]
              · simp only [List.length_cons, Nat.succ_le_succ_iff] at hf hg
                rw [ih _ _ hf hg]

/-- One step of `hostSub` at a position where the pattern
`host ([0-9.]+)` matches. -/
theorem hostSub_cons_match (c : Char) (rest : List Char)
    (h : (c :: rest).take 5 = hostKey ∧ (rest.drop 4).takeWhile isDigitDot ≠ []) :
    hostSub (c :: rest) = (rest.drop 4).takeWhile isDigitDot ++ spZeros ++
      hostSub ((rest.drop 4).drop ((rest.drop 4).takeWhile isDigitDot).length) := by
  unfold hostSub
  simp only [List.length_cons, hostSubGo]
  rw [if_pos h]
  have hlen : (((rest.drop 4).drop
      ((rest.drop 4).takeWhile isDigitDot).length)).length ≤ rest.length := by
    simp [List.length_drop]
  rw [hostSubGo_fuel rest.length _ _ hlen le_rfl]

/-- One step of `hostSub` at a position where the pattern does not match
(including a `host ` not followed by a `[0-9.]` character: Python then
retries at the next position, i.e. one character is simply copied). -/
theorem hostSub_cons_nomatch (c : Char) (rest : List Char)
    (h : ¬((c :: rest).take 5 = hostKey ∧ (rest.drop 4).takeWhile isDigitDot ≠ [])) :
    hostSub (c :: rest) = c :: hostSub rest := by
  unfold hostSub
  simp only [List.length_cons, hostSubGo]
  rw [if_neg h]

/-- The pattern `host ([0-9.]+)` matches the text `s` at position `p`. -/
def hostMatchAt (s : List Char) (p : Nat) : Prop :=
  (s.drop p).take 5 = hostKey ∧ ((s.drop p).drop 5).takeWhile isDigitDot ≠ []

instance (s : List Char) (p : Nat) : Decidable (hostMatchAt s p) := by
  unfold hostMatchAt; infer_instance

/-- A `takeWhile` stops exactly at the end of an all-satisfying block when
what follows starts unsatisfying. -/
theorem takeWhile_append_block (p : Char → Bool) (r v : List Char)
    (hr : ∀ c ∈ r, p c = true) (hv : v.takeWhile p = []) :
    (r ++ v).takeWhile p = r := by
  induction r with
  | nil => simpa using hv
  | cons c r ih =>
      have hc : p c = true := hr c (by simp)
      simp only [List.cons_append, List.takeWhile_cons, hc, if_true]
      rw [ih (fun x hx => hr x (by simp [hx]))]

/-- One scanning step of `anyReplace` on a list with at least three
elements. -/
theorem anyReplace_cons3 (c d e : Char) (rest : List Char) :
    anyReplace (c :: d :: e :: rest) =
      if c = 'a' ∧ d = 'n' ∧ e = 'y' then anyRepl ++ anyReplace rest
      else c :: anyReplace (d :: e :: rest) := rfl

/-- The scan `anyReplace` rewrites an occurrence of `any` sitting at the head. -/
theorem anyReplace_head (v : List Char) :
    anyReplace ('a' :: 'n' :: 'y' :: v) = anyRepl ++ anyReplace v := by
  rw [anyReplace_cons3, if_pos ⟨rfl, rfl, rfl⟩]

/-- Every occurrence of the plain substring `any` — word boundary or not —
is rewritten by the step-2 `replace`: if no occurrence starts before or
straddles the start of an explicit occurrence `u ++ any ++ v`, then that
occurrence is replaced and rewriting continues to the right of it. -/
theorem anyReplace_splice (u v : List Char)
    (h : containsSeg anyPat (u ++ ['a', 'n']) = false) :
    anyReplace (u ++ anyPat ++ v) = u ++ anyRepl ++ anyReplace v := by
  have hA : anyPat = ['a', 'n', 'y'] := rfl
  rw [hA] at h ⊢
  induction u with
  | nil =>
      simp only [List.nil_append]
      exact anyReplace_head v
  | cons c u' ih =>
      have htail : containsSeg ['a', 'n', 'y'] (u' ++ ['a', 'n']) = false := by
        have hstep : containsSeg ['a', 'n', 'y'] ((c :: u') ++ ['a', 'n']) =
            (startsWith ['a', 'n', 'y'] ((c :: u') ++ ['a', 'n']) ||
             containsSeg ['a', 'n', 'y'] (u' ++ ['a', 'n'])) := rfl
        rw [hstep] at h
        exact (Bool.or_eq_false_iff.mp h).2
      cases u' with
      | nil =>
          have hcond : ¬(c = 'a' ∧ 'a' = 'n' ∧ 'n' = 'y') := by
            rintro ⟨-, h2, -⟩; exact absurd h2 (by decide)
          simp only [List.cons_append, List.nil_append]
          rw [anyReplace_cons3, if_neg hcond, anyReplace_head]
      | cons d u'' =>
          cases u'' with
          | nil =>
              have hcond : ¬(c = 'a' ∧ d = 'n' ∧ 'a' = 'y') := by
                rintro ⟨-, -, h3⟩; exact absurd h3 (by decide)
              have hcond2 : ¬(d = 'a' ∧ 'a' = 'n' ∧ 'n' = 'y') := by
                rintro ⟨-, h2, -⟩; exact absurd h2 (by decide)
              simp only [List.cons_append, List.nil_append]
              rw [anyReplace_cons3, if_neg hcond, anyReplace_cons3, if_neg hcond2,
                anyReplace_head]
          | cons e u₃ =>
              have hcond : ¬(c = 'a' ∧ d = 'n' ∧ e = 'y') := by
                rintro ⟨h1, h2, h3⟩
                subst h1; subst h2; subst h3
                have hs : startsWith ['a', 'n', 'y']
                    (('a' :: 'n' :: 'y' :: u₃) ++ ['a', 'n']) = true := by
                  simp [startsWith]
                have hstep : containsSeg ['a', 'n', 'y'] (('a' :: 'n' :: 'y' :: u₃) ++ ['a', 'n']) =
                    (startsWith ['a', 'n', 'y'] (('a' :: 'n' :: 'y' :: u₃) ++ ['a', 'n']) ||
                     containsSeg ['a', 'n', 'y'] (('n' :: 'y' :: u₃) ++ ['a', 'n'])) := rfl
                rw [hstep, hs, Bool.true_or] at h
                exact absurd h (by simp)
              simp only [List.cons_append]
              rw [anyReplace_cons3, if_neg hcond]
              exact congrArg (List.cons c) (ih htail)

/-- Every occurrence of `host ` followed by a maximal nonempty run of
`[0-9.]` characters is rewritten by the step-2 `re.sub`: if no match of the
pattern starts before an explicit occurrence `u ++ "host " ++ r ++ v`
(with `r` the maximal digit/dot run), the occurrence is rewritten to
`r ++ " 0.0.0.0"` and scanning resumes after it. -/
theorem hostSub_splice (u r v : List Char)
    (hr0 : r ≠ []) (hr : ∀ c ∈ r, isDigitDot c = true)
    (hv : v.takeWhile isDigitDot = [])
    (h : ∀ p < u.length, ¬ hostMatchAt (u ++ hostKey ++ r ++ v) p) :
    hostSub (u ++ hostKey ++ r ++ v) = u ++ r ++ spZeros ++ hostSub v := by
  have hH : hostKey = ['h', 'o', 's', 't', ' '] := rfl
  rw [hH] at h ⊢
  have hrun : (r ++ v).takeWhile isDigitDot = r := takeWhile_append_block _ r v hr hv
  revert h
  induction u with
  | nil =>
      intro _
      simp only [List.nil_append, List.cons_append]
      have hm : (('h' :: 'o' :: 's' :: 't' :: ' ' :: (r ++ v)).take 5 = hostKey ∧
          (('o' :: 's' :: 't' :: ' ' :: (r ++ v)).drop 4).takeWhile isDigitDot ≠ []) := by
        refine ⟨rfl, ?_⟩
        show (r ++ v).takeWhile isDigitDot ≠ []
        rw [hrun]; exact hr0
      rw [hostSub_cons_match _ _ hm]
      simp only [List.drop_succ_cons, List.drop_zero]
      rw [hrun, List.drop_left]
  | cons c u' ih =>
      intro h
      simp only [List.cons_append]
      have hnc : ¬((c :: (u' ++ ['h', 'o', 's', 't', ' '] ++ r ++ v)).take 5 = hostKey ∧
          ((u' ++ ['h', 'o', 's', 't', ' '] ++ r ++ v).drop 4).takeWhile isDigitDot ≠ []) := by
        intro hc
        exact h 0 (by simp) ⟨hc.1, hc.2⟩
      rw [hostSub_cons_nomatch _ _ hnc]
      have hshift : ∀ p < u'.length,
          ¬ hostMatchAt (u' ++ ['h', 'o', 's', 't', ' '] ++ r ++ v) p := by
        intro p hp hm
        exact h (p + 1) (by simpa using Nat.succ_lt_succ hp) ⟨hm.1, hm.2⟩
      exact congrArg (List.cons c) (ih hshift)

/-- C7 (counterexample): the step-2 rewriting does replace occurrences of
`any` and `host <ip>` that are part of larger words (`canyon`, `ghost`):
Python `str.replace` and this `re.sub` pattern have no word-boundary test,
so the remainder `canyon ghost 1.2.3.4` — which contains no bare-word
occurrence at all and should be left unchanged per the claim — is rewritten. -/
theorem C7_counterexample :
    substituteLine (strL "canyon ghost 1.2.3.4") =
      strL "c0.0.0.0 255.255.255.255on g1.2.3.4 0.0.0.0" ∧
    substituteLine (strL "canyon ghost 1.2.3.4") ≠ strL "canyon ghost 1.2.3.4" := by
  exact ⟨rfl, by decide⟩

/-- C7 (amended): before structural parsing, the remainder is rewritten by
replacing every occurrence of the plain substring `any` — including
occurrences inside larger words — with `0.0.0.0 255.255.255.255`, and then
every occurrence of `host ` followed by a maximal nonempty run of `[0-9.]`
characters with that run followed by ` 0.0.0.0`; rewriting proceeds left to
right over non-overlapping occurrences (stated here as: the leftmost
occurrence is rewritten and rewriting continues on the rest). -/
theorem C7_substitutions :
    (∀ u v : List Char, containsSeg anyPat (u ++ ['a', 'n']) = false →
       anyReplace (u ++ anyPat ++ v) = u ++ anyRepl ++ anyReplace v) ∧
    (∀ u r v : List Char, r ≠ [] → (∀ c ∈ r, isDigitDot c = true) →
       v.takeWhile isDigitDot = [] →
       (∀ p < u.length, ¬ hostMatchAt (u ++ hostKey ++ r ++ v) p) →
       hostSub (u ++ hostKey ++ r ++ v) = u ++ r ++ spZeros ++ hostSub v) :=
  ⟨anyReplace_splice, hostSub_splice⟩

/-- C7 witness. -/
theorem C7_substitutions_witness :
    (containsSeg anyPat (strL "c" ++ ['a', 'n']) = false ∧
     anyReplace (strL "c" ++ anyPat ++ strL "on") =
       strL "c" ++ anyRepl ++ anyReplace (strL "on")) ∧
    ((strL "1.2.3.4" ≠ ([] : List Char)) ∧ (∀ c ∈ strL "1.2.3.4", isDigitDot c = true) ∧
     ([] : List Char).takeWhile isDigitDot = [] ∧
     (∀ p < (strL "g").length, ¬ hostMatchAt (strL "g" ++ hostKey ++ strL "1.2.3.4" ++ []) p) ∧
     hostSub (strL "g" ++ hostKey ++ strL "1.2.3.4" ++ []) =
       strL "g" ++ strL "1.2.3.4" ++ spZeros ++ hostSub []) :=
  ⟨⟨by decide, C7_substitutions.1 (strL "c") (strL "on") (by decide)⟩,
   ⟨by decide, by decide, by decide, by decide,
    C7_substitutions.2 (strL "g") (strL "1.2.3.4") [] (by decide) (by decide) (by decide)
      (by decide)⟩⟩

/-! ## C4: dotted-quad round trip -/

theorem decDigitsGo_zero (f : Nat) (acc : List Char) : decDigitsGo f 0 acc = acc := by
  cases f <;> simp [decDigitsGo]

/-- The helper `decDigitsGo` produces the base-10 digits, most significant first, as
long as the fuel covers the value. -/
theorem decDigitsGo_spec : ∀ (f n : Nat) (acc : List Char), 0 < n → n ≤ f →
    decDigitsGo f n acc = ((Nat.digits 10 n).reverse.map digitChar) ++ acc := by
  intro f
  induction f with
  | zero => intro n acc h0 h1; omega
  | succ f ih =>
      intro n acc h0 h1
      rw [decDigitsGo, if_neg (Nat.pos_iff_ne_zero.mp h0)]
      rcases Nat.eq_zero_or_pos (n / 10) with hq | hq
      · rw [hq, decDigitsGo_zero, Nat.digits_def' (by norm_num : (1:Nat) < 10) h0, hq]
        simp
      · rw [ih (n / 10) _ hq (by omega), Nat.digits_def' (by norm_num : (1:Nat) < 10) h0]
        simp

theorem digitVal_digitChar (d : Nat) (hd : d < 10) : digitVal (digitChar d) = d := by
  interval_cases d <;> rfl

theorem foldl_digits_rev : ∀ (l : List Nat), (∀ d ∈ l, d < 10) → ∀ (a : Nat),
    List.foldl (fun acc c => 10 * acc + digitVal c) a ((l.reverse).map digitChar) =
      a * 10 ^ l.length + Nat.ofDigits 10 l := by
  intro l
  induction l with
  | nil => intro _ a; simp [Nat.ofDigits_nil]
  | cons d t ih =>
      intro hl a
      have hdv : digitVal (digitChar d) = d := digitVal_digitChar d (hl d (by simp))
      rw [List.reverse_cons, List.map_append, List.foldl_append]
      rw [ih (fun x hx => hl x (by simp [hx])) a]
      simp only [List.map_cons, List.map_nil, List.foldl_cons, List.foldl_nil, hdv,
        Nat.ofDigits_cons, List.length_cons]
      ring

/-- Python `int(str(n)) == n` for nonnegative `n`. -/
theorem decValue_natToDec (n : Nat) : decValue (natToDec n) = n := by
  unfold natToDec
  split
  · rename_i h; rw [h]; rfl
  · rename_i h
    rw [decDigitsGo_spec n n [] (by omega) le_rfl, List.append_nil]
    unfold decValue
    rw [foldl_digits_rev _ (fun d hd => Nat.digits_lt_base (by norm_num) hd) 0]
    simp [Nat.ofDigits_digits]

/-- Python `str(n)` consists of decimal digits only. -/
theorem natToDec_all_digits (n : Nat) : ∀ c ∈ natToDec n, isDigit0 c = true := by
  unfold natToDec
  split
  · intro c hc; simp at hc; subst hc; rfl
  · rename_i h
    rw [decDigitsGo_spec n n [] (by omega) le_rfl, List.append_nil]
    intro c hc
    simp only [List.mem_map, List.mem_reverse] at hc
    obtain ⟨d, hd, rfl⟩ := hc
    have hd10 : d < 10 := Nat.digits_lt_base (by norm_num) hd
    interval_cases d <;> rfl

theorem natToDec_ne_nil (n : Nat) : natToDec n ≠ [] := by
  unfold natToDec
  split
  · simp
  · rename_i h
    rw [decDigitsGo_spec n n [] (by omega) le_rfl, List.append_nil]
    simp [Nat.digits_ne_nil_iff_ne_zero, h]

/-- The source's octet extraction `(ip & (255 << s)) >> s` is the decimal
byte `ip / 2^s % 256`. -/
theorem oct_extract (m s : Nat) : (m &&& (255 <<< s)) >>> s = m / 2 ^ s % 256 := by
  apply Nat.eq_of_testBit_eq
  intro i
  rw [Nat.testBit_shiftRight, Nat.testBit_and, Nat.testBit_shiftLeft]
  rw [show (256 : Nat) = 2 ^ 8 from rfl, Nat.testBit_mod_two_pow]
  rw [← Nat.shiftRight_eq_div_pow, Nat.testBit_shiftRight]
  rw [Nat.add_sub_cancel_left]
  rw [show (255 : Nat) = 2 ^ 8 - 1 from rfl, Nat.testBit_two_pow_sub_one]
  simp [Nat.le_add_right, Bool.and_comm]

/-- Reassembling the four extracted octets of a 32-bit value gives the
value back. -/
theorem four_octets_recompose (m : Nat) (hm : m < 2 ^ 32) :
    (((m &&& (255 <<< 24)) >>> 24) <<< 24) + (((m &&& (255 <<< 16)) >>> 16) <<< 16) +
      (((m &&& (255 <<< 8)) >>> 8) <<< 8) + ((m &&& (255 <<< 0)) >>> 0) = m := by
  rw [oct_extract, oct_extract, oct_extract, oct_extract]
  rw [Nat.shiftLeft_eq, Nat.shiftLeft_eq, Nat.shiftLeft_eq]
  have e24 : (2:Nat) ^ 24 = 16777216 := by norm_num
  have e16 : (2:Nat) ^ 16 = 65536 := by norm_num
  have e8 : (2:Nat) ^ 8 = 256 := by norm_num
  have e0 : (2:Nat) ^ 0 = 1 := by norm_num
  have e32 : (2:Nat) ^ 32 = 4294967296 := by norm_num
  rw [e24, e16, e8, e0]
  rw [e32] at hm
  omega

/-- The regex of `_from_string` decomposes a printed dotted quad back into the
four printed digit groups. -/
theorem ipv4Groups_print (o0 o1 o2 o3 : Nat) :
    ipv4Groups (natToDec o0 ++ '.' ::
        (natToDec o1 ++ '.' :: (natToDec o2 ++ '.' :: natToDec o3))) =
      some (natToDec o0, natToDec o1, natToDec o2, natToDec o3) := by
  have hdot : ∀ X : List Char, ('.' :: X).takeWhile isDigit0 = [] := fun X => rfl
  have h1 := takeWhile_append_block isDigit0 (natToDec o0)
      ('.' :: (natToDec o1 ++ '.' :: (natToDec o2 ++ '.' :: natToDec o3)))
      (natToDec_all_digits o0) (hdot _)
  have h2 := takeWhile_append_block isDigit0 (natToDec o1)
      ('.' :: (natToDec o2 ++ '.' :: natToDec o3)) (natToDec_all_digits o1) (hdot _)
  have h3 := takeWhile_append_block isDigit0 (natToDec o2)
      ('.' :: natToDec o3) (natToDec_all_digits o2) (hdot _)
  have h4 : (natToDec o3).takeWhile isDigit0 = natToDec o3 :=
    List.takeWhile_eq_self_iff.mpr (natToDec_all_digits o3)
  simp [ipv4Groups, h1, h2, h3, h4, List.drop_left, List.drop_length,
    natToDec_ne_nil o0, natToDec_ne_nil o1, natToDec_ne_nil o2, natToDec_ne_nil o3]

/-- C4: for every `0 ≤ n ≤ 2^32 − 1`, printing `n` as a dotted quad and
constructing an IPv4Address from that text yields the value `n` back. -/
theorem C4_roundtrip (n : Int) (h0 : 0 ≤ n) (h1 : n < 2 ^ 32) :
    IPv4Address.create (.inr (IPv4Address.toDottedQuad ⟨n⟩)) = .ok ⟨n⟩ := by
  have hm : n.toNat < 2 ^ 32 := by omega
  have htd : IPv4Address.toDottedQuad ⟨n⟩ =
      natToDec ((n.toNat &&& (255 <<< 24)) >>> 24) ++ '.' ::
      (natToDec ((n.toNat &&& (255 <<< 16)) >>> 16) ++ '.' ::
      (natToDec ((n.toNat &&& (255 <<< 8)) >>> 8) ++ '.' ::
      natToDec ((n.toNat &&& (255 <<< 0)) >>> 0))) := rfl
  have hf : ipv4FromString (IPv4Address.toDottedQuad ⟨n⟩) = .ok n.toNat := by
    rw [htd]
    simp only [ipv4FromString, ipv4Groups_print]
    rw [decValue_natToDec, decValue_natToDec, decValue_natToDec, decValue_natToDec,
      four_octets_recompose n.toNat hm]
  simp only [IPv4Address.create, hf]
  rw [Int.toNat_of_nonneg h0]
  rw [if_neg (by omega)]

/-- C4 witness (`192.168.1.1 = 3232235777`). -/
theorem C4_roundtrip_witness :
    (0 ≤ (3232235777 : Int)) ∧ ((3232235777 : Int) < 2 ^ 32) ∧
    IPv4Address.create (.inr (IPv4Address.toDottedQuad ⟨3232235777⟩)) = .ok ⟨3232235777⟩ :=
  ⟨by decide, by decide, C4_roundtrip 3232235777 (by decide) (by decide)⟩
